import Mathlib

/-!
Verification development for the eonha consumption-data pipeline.

Shallow embedding conventions:
* Timestamps are integers counting minutes (UTC instants); one half-hour
  interval is `30`, one hour is `60`, two days are `2880`, 365 days are
  `525600`.
* Monetary/energy values are rationals (`ℚ`), standing in for the floats of
  the source; floating-point rounding is outside the model.
* Consumption records (`{startAt, endAt, value}` dicts in the source) are the
  structure `Reading`; the `source` field is a ghost provenance tag taken from
  the specification's data model (the code's dicts carry no such tag, the tag
  records which input list a reading came from).
-/

namespace Eonha

/-- Provenance of an interval reading (spec §3 `source: enum{PRIMARY, SECONDARY}`). -/
inductive Source where
  | primary
  | secondary
deriving DecidableEq, Repr

/-- One interval consumption record, the `{startAt, endAt, value}` dict of the
source (`eon_api.get_consumption_data` nodes, `coordinator._fetch_glow_data`
results), with the spec's ghost provenance tag. -/
structure Reading where
  startAt : Int
  endAt : Int
  value : ℚ
  source : Source
deriving DecidableEq, Repr

/-! ### Merge & dedup engine

`coordinator._async_update_data` merges the secondary (Glowmarkt) series into
the primary one with `consumption.extend(glow_data)` followed by
`consumption.sort(key=lambda x: x['startAt'])` (lines 124-126).  Python's
`sort` is a stable sort by the key; `List.insertionSort` on the `startAt`
order is a stable sort and models it. -/

/-- `consumption.sort(key=lambda x: x['startAt'])`. -/
def sortByStart (l : List Reading) : List Reading :=
  List.insertionSort (fun a b => a.startAt ≤ b.startAt) l

/-- The merge performed by `coordinator._async_update_data` lines 124-126:
concatenate the primary and secondary series and sort by `startAt`.
There is no deduplication step in the source. -/
def mergeSeries (primary secondary : List Reading) : List Reading :=
  sortByStart (primary ++ secondary)

/-! ### Hourly aggregation

`sensor._async_import_historical_stats` lines 132-153: a dict `hourly_data`
maps each hour start to the sum of the values of the readings whose `startAt`
floors into that hour; iteration follows the consumption list, new keys are
appended (Python dict insertion order), and the keys are then sorted.
We model the dict as an association list with the same append-on-miss,
add-on-hit update, and the `sorted(hourly_data.keys())` step as a stable sort
of the (key, value) pairs by key (equivalent given the keys are distinct). -/

/-- `start_dt.replace(minute=0, second=0, microsecond=0)`: floor a timestamp
in minutes to the enclosing hour boundary. -/
def hourFloor (t : Int) : Int :=
  t - t.emod 60

/-- One update of the `hourly_data` dict:
`if h not in d: d[h] = 0.0` then `d[h] += v`. -/
def addTo : List (Int × ℚ) → Int → ℚ → List (Int × ℚ)
  | [], h, v => [(h, v)]
  | (k, s) :: m, h, v =>
      if k = h then (k, s + v) :: m else (k, s) :: addTo m h v

/-- The `hourly_data` dict built from the consumption list
(lines 133-148 of `sensor.py`). -/
def hourlyDataOf (consumption : List Reading) : List (Int × ℚ) :=
  consumption.foldl (fun m r => addTo m (hourFloor r.startAt) r.value) []

/-- `sorted_hours = sorted(hourly_data.keys())` paired with the dict lookups:
the association pairs sorted ascending by hour. -/
def sortedHourly (consumption : List Reading) : List (Int × ℚ) :=
  List.insertionSort (fun a b => a.1 ≤ b.1) (hourlyDataOf consumption)

/-! ### Cumulative statistics importer

`sensor._async_import_historical_stats` lines 153-237.  The persisted
statistics store for one statistic identity is modelled as a list of
`StatPoint` held in ascending `start` order (the recorder returns rows of
`statistics_during_period` ordered by start time, and keeps one row per hour).
`statistics_during_period(hass, s, e, {id}, "hour", None, {"sum"})` is the
half-open range filter `statsDuring`. -/

/-- One persisted row of the statistics store: `{start, state, sum}`. -/
structure StatPoint where
  start : Int
  state : ℚ
  sum : ℚ
deriving DecidableEq, Repr

/-- `statistics_during_period(start, end)` for one statistic identity:
the rows whose hour start lies in the half-open range `[s, e)`. -/
def statsDuring (store : List StatPoint) (s e : Int) : List StatPoint :=
  store.filter (fun p => decide (s ≤ p.start ∧ p.start < e))

/-- The bucket walk of lines 203-222: for each hour in ascending order add its
value to the running sum unconditionally; skip hours already in
`existing_hours`, otherwise emit a `StatisticData(start, state=sum, sum=sum)`
point. -/
def walk (existing : List Int) : List (Int × ℚ) → ℚ → List StatPoint
  | [], _ => []
  | (h, v) :: rest, acc =>
      let acc' := acc + v
      if h ∈ existing then walk existing rest acc'
      else ⟨h, acc', acc'⟩ :: walk existing rest acc'

/-- `sensor._async_import_historical_stats` from the point where
`sorted_hours` is known (lines 153-222): resolve the checkpoint from the
store (last row of the 365-day lookback query strictly before the first
hour), resolve the hours already present in `[first, last + 1h)`, then walk
the buckets.  Returns the list of points handed to `async_import_statistics`.
The running total is a function of the persisted store alone — no in-memory
state enters. -/
def importStats (store : List StatPoint) (hourly : List (Int × ℚ)) : List StatPoint :=
  match hourly with
  | [] => []
  | x :: xs =>
      let h0 := x.1
      let hL := (List.getLast (x :: xs) (List.cons_ne_nil x xs)).1
      let lastStats := statsDuring store (h0 - 525600) h0
      let runningSum : ℚ :=
        match lastStats.getLast? with
        | some p => p.sum
        | none => 0
      let existingHours := (statsDuring store h0 (hL + 60)).map (·.start)
      walk existingHours (x :: xs) runningSum

/-- The recorder's `async_import_statistics` write of one point: insert by
hour start, replacing an existing row with the same hour. -/
def insertPoint : List StatPoint → StatPoint → List StatPoint
  | [], q => [q]
  | p :: ps, q =>
      if q.start < p.start then q :: p :: ps
      else if q.start = p.start then q :: ps
      else p :: insertPoint ps q

/-- The store after one import call: the emitted points committed by
`async_import_statistics` (lines 224-237). -/
def applyImport (store : List StatPoint) (hourly : List (Int × ℚ)) : List StatPoint :=
  (importStats store hourly).foldl insertPoint store

/-- The full import entry point of `_async_import_historical_stats`:
aggregate the consumption list to sorted hourly buckets, then import. -/
def importHistoricalStats (store : List StatPoint) (consumption : List Reading) :
    List StatPoint :=
  importStats store (sortedHourly consumption)

/-! ### Interval fetcher (`eon_api.get_consumption_data`, lines 332-404)

The GraphQL responses are modelled structurally: a response optionally holds
an account with a list of agreements; an agreement optionally holds a meter
point with its meters; a meter has an id and optionally a consumption
connection with edges (each edge optionally holding a node) and page info.
The continuation cursor is abstracted by indexing the server's responses by
request number (the server is deterministic, the k-th request gets the k-th
response); the `while has_next_page` loop is given fuel, one unit per
iteration, so non-termination is visible as `hasNext` never becoming false. -/

/-- Page info of a consumption connection. -/
structure PageInfo where
  hasNextPage : Bool
deriving DecidableEq, Repr

/-- A consumption connection: edges (an edge or its node may be null) and
page info. -/
structure Consum where
  edges : List (Option (Option Reading))
  pageInfo : PageInfo
deriving DecidableEq, Repr

/-- One meter object of a response. -/
structure GqlMeter where
  id : Nat
  consumption : Option Consum
deriving DecidableEq, Repr

/-- One agreement: `meterPoint` may be null; when present it carries the
meters list. -/
structure Agreement where
  meterPoint : Option (List GqlMeter)
deriving DecidableEq, Repr

/-- One GraphQL response; `account = none` models a response without
`data`/`account` (the loop `break`s). -/
structure GqlResponse where
  account : Option (List Agreement)
deriving DecidableEq, Repr

/-- The `for edge in edges` loop (lines 379-395): null edges and null nodes
are skipped; a node with `startAt ≤ end` is appended; the first node past the
window end sets `has_next_page = False` and breaks.  Returns the appended
nodes and whether the loop ran without that break. -/
def procEdges (endD : Int) : List (Option (Option Reading)) → List Reading × Bool
  | [] => ([], true)
  | none :: rest => procEdges endD rest
  | some none :: rest => procEdges endD rest
  | some (some n) :: rest =>
      if n.startAt ≤ endD then
        let r := procEdges endD rest
        (n :: r.1, r.2)
      else ([], false)

/-- Processing of one agreement inside the response loop (lines 362-402):
a null meter point is skipped; the first meter whose id matches is processed
(consumption null sets `has_next_page = False`; otherwise the edges are
consumed and `has_next_page` is and-ed with the page info flag). -/
def procAgreement (meterId : Nat) (endD : Int)
    (st : List Reading × Bool) (ag : Agreement) : List Reading × Bool :=
  match ag.meterPoint with
  | none => st
  | some meters =>
      match meters.find? (fun m => m.id == meterId) with
      | none => st
      | some m =>
          match m.consumption with
          | none => (st.1, false)
          | some c =>
              let r := procEdges endD c.edges
              (st.1 ++ r.1, c.pageInfo.hasNextPage && r.2 && st.2)

/-- One iteration of the `while has_next_page` loop on one response:
a response without account data breaks the loop; otherwise every agreement is
processed in order (`has_next_page` is true on loop entry). -/
def procResponse (meterId : Nat) (endD : Int) (resp : GqlResponse)
    (out : List Reading) : List Reading × Bool :=
  match resp.account with
  | none => (out, false)
  | some agreements => agreements.foldl (procAgreement meterId endD) (out, true)

/-- State of the pagination loop: accumulated `consumption_data` and the
`has_next_page` flag. -/
structure PagerState where
  out : List Reading
  hasNext : Bool
deriving DecidableEq, Repr

/-- `fuel` iterations of the `while has_next_page` loop of
`get_consumption_data`; `resps k` is the server's response to the k-th
request.  While `hasNext` is true another request is issued; once false the
state is final (the function returns `out`). -/
def runPager (meterId : Nat) (endD : Int) (resps : Nat → GqlResponse) :
    Nat → PagerState
  | 0 => ⟨[], true⟩
  | n + 1 =>
      let st := runPager meterId endD resps n
      if st.hasNext then
        let r := procResponse meterId endD (resps n) st.out
        ⟨r.1, r.2⟩
      else st

/-! ### Refresh cycle orchestrator (`coordinator._async_update_data`, lines 59-141)

The whole body runs in a single `try`; any exception raised while processing
one meter (in particular a fetch error from `get_consumption_data`) escapes
the meter loop, is caught at line 140 and re-raised as `UpdateFailed`.  The
per-meter fetch outcomes are the inputs of the model; the meter loop either
produces the full list of meter entries or fails with the first error. -/

/-- One entry of the cycle result map: `{"info": …, "consumption": …}`. -/
structure MeterEntry where
  meterId : Nat
  consumption : List Reading
deriving DecidableEq, Repr

/-- The meter loop of `_async_update_data` (lines 78-138) given each meter's
fetch outcome: a successful fetch is sorted by `startAt` and appended to
`all_meter_data`; a raised fetch error aborts the loop and the whole update
fails (`UpdateFailed`, line 141). -/
def updateData : List (Nat × Except Unit (List Reading)) → Except Unit (List MeterEntry)
  | [] => .ok []
  | (i, f) :: rest =>
      match f with
      | .error e => .error e
      | .ok c =>
          match updateData rest with
          | .error e => .error e
          | .ok tail => .ok (⟨i, sortByStart c⟩ :: tail)

/-- The coordinator's data after one cycle: on `UpdateFailed` the
`DataUpdateCoordinator` keeps the previous cycle's data (stale data is
preserved, not cleared). -/
def coordinatorStep (prior : List MeterEntry)
    (fetches : List (Nat × Except Unit (List Reading))) : List MeterEntry :=
  match updateData fetches with
  | .ok d => d
  | .error _ => prior

/-! ### Secondary source since computation (coordinator lines 105-120)

`glow_start = datetime.now() - timedelta(days=2)`; if the (sorted) primary
consumption list is non-empty, `glow_start` becomes the last reading's
`startAt` plus 30 minutes. -/

/-- The `since` timestamp handed to the Glowmarkt fetch, as the code computes
it from the sorted primary consumption list and the current time. -/
def glowStartOf (consumption : List Reading) (now : Int) : Int :=
  match consumption.getLast? with
  | none => now - 2880
  | some last => last.startAt + 30

/-- Modelled from the spec's words for the same quantity (§4.2 and claim C6):
"last primary reading's end + one interval", with the same 2-day default. -/
def glowStartClaim (consumption : List Reading) (now : Int) : Int :=
  match consumption.getLast? with
  | none => now - 2880
  | some last => last.endAt + 30

/-! ### Secondary source adapter (`coordinator._fetch_glow_data`, lines 143-267)

The adapter's interactions with the Glowmarkt client are modelled as an
environment: whether the client constructor succeeds, the outcome of resource
discovery (exception, or the virtual entities with their resources), whether
the readings request or its JSON decoding raises, the HTTP status, and the
decoded `data` array.  A `data` entry is `none` when it is malformed (its
normalization at lines 241-259 would raise — that loop is outside every
`try`), and otherwise carries the `[timestamp, value]` pair with an optional
value (`null` readings). -/

/-- One resource of a Glowmarkt virtual entity. -/
structure GlowResource where
  classifier : String
deriving DecidableEq, Repr

/-- The environment a `_fetch_glow_data` call runs against. -/
structure GlowEnv where
  clientOk : Bool
  discovery : Except Unit (List (List GlowResource))
  requestRaises : Bool
  status : Nat
  data : List (Option (Int × Option ℚ))
deriving Repr

/-- The resource search of lines 154-186: the first resource with classifier
`electricity.consumption` over all virtual entities. -/
def findTargetResource (ents : List (List GlowResource)) : Option GlowResource :=
  ents.findSome? (fun rs => rs.find? (fun r => r.classifier == "electricity.consumption"))

/-- One well-formed `data` entry normalized (lines 252-265): `startAt` is the
entry's timestamp, `endAt` is 30 minutes later, both UTC instants. -/
def mkGlowReading (ts : Int) (v : ℚ) : Reading :=
  ⟨ts, ts + 30, v, .secondary⟩

/-- The normalization loop of lines 241-265 on well-formed entries: entries
with a `null` value are skipped (`continue`), the rest become readings. -/
def glowNormalize (entries : List (Int × Option ℚ)) : List Reading :=
  entries.filterMap (fun e => e.2.map (fun v => mkGlowReading e.1 v))

/-- The normalization loop on raw entries: a malformed entry raises, and the
exception escapes `_fetch_glow_data` (the loop is outside every `try`). -/
def glowNormalizeRaw : List (Option (Int × Option ℚ)) → Except Unit (List Reading)
  | [] => .ok []
  | none :: _ => .error ()
  | some e :: rest =>
      match glowNormalizeRaw rest with
      | .error u => .error u
      | .ok tail =>
          match e.2 with
          | none => .ok tail
          | some v => .ok (mkGlowReading e.1 v :: tail)

/-- `_fetch_glow_data` over an environment.  Client-construction failure,
discovery failure, a missing target resource, a raised request, and a
non-200 status each return `[]` (caught internally, warning logged);
normalization of a malformed entry raises out of the function. -/
def fetchGlowData (env : GlowEnv) : Except Unit (List Reading) :=
  if !env.clientOk then .ok []
  else
    match env.discovery with
    | .error _ => .ok []
    | .ok ents =>
        match findTargetResource ents with
        | none => .ok []
        | some _ =>
            if env.requestRaises then .ok []
            else if env.status ≠ 200 then .ok []
            else glowNormalizeRaw env.data

/-- The caller's guard around the Glowmarkt merge (coordinator lines 105-128):
an exception anywhere in the block is caught with a warning and the primary
series stands; an empty result leaves the primary series untouched; otherwise
the two series are merged. -/
def mergeGlowCaller (primary : List Reading) (env : GlowEnv) : List Reading :=
  match fetchGlowData env with
  | .error _ => primary
  | .ok glow => if glow.isEmpty then primary else mergeSeries primary glow

/-! ### Invariant predicates -/

/-- The store holds rows in strictly ascending hour order (one row per hour,
ordered by `hour_start`). -/
def StoreSorted (s : List StatPoint) : Prop :=
  s.Pairwise (fun p q => p.start < q.start)

/-- The persisted `sum` sequence, read off in store (i.e. `hour_start`) order,
is non-decreasing. -/
def SumsMono (s : List StatPoint) : Prop :=
  s.Pairwise (fun p q => p.sum ≤ q.sum)

/-- A bucket list with strictly ascending hours, as `sorted_hours` over a
dict's distinct keys always is. -/
def HourlySorted (l : List (Int × ℚ)) : Prop :=
  l.Pairwise (fun a b => a.1 < b.1)

/-! ### Spec-side importer (for the refinement claim C2)

These definitions follow the words of the specification, not the code: the
checkpoint is "the most recent point within a 365-day lookback strictly
before the first bucket's hour_start", and an hour is skipped when it is
"already present in the store". -/

/-- Modelled from the spec: the most recent (maximal `hour_start`) persisted
point in the half-open lookback window `[lo, hi)`. -/
def mostRecentBefore (store : List StatPoint) (lo hi : Int) : Option StatPoint :=
  (statsDuring store lo hi).foldl
    (fun acc p =>
      match acc with
      | none => some p
      | some q => if q.start < p.start then some p else some q)
    none

/-- Modelled from the spec (claim C2's wording): start the running total at
the most recent point's `sum` within the 365-day lookback strictly before the
first bucket (0 when there is none), then walk the buckets in ascending
order, skipping every hour already present in the store. -/
def importSpecPoints (store : List StatPoint) (hourly : List (Int × ℚ)) :
    List StatPoint :=
  match hourly with
  | [] => []
  | x :: xs =>
      let r0 : ℚ :=
        match mostRecentBefore store (x.1 - 525600) x.1 with
        | some p => p.sum
        | none => 0
      walk (store.map (·.start)) (x :: xs) r0

/-! ## Supporting lemmas -/

theorem addTo_snd_sum (m : List (Int × ℚ)) (h : Int) (v : ℚ) :
    ((addTo m h v).map (·.2)).sum = (m.map (·.2)).sum + v := by
  induction m with
  | nil => simp [addTo]
  | cons p m ih =>
      obtain ⟨k, s⟩ := p
      by_cases hk : k = h
      · simp [addTo, hk]
        ring
      · simp [addTo, hk, ih]
        ring

theorem hourlyDataOf_sum (rs : List Reading) :
    ((hourlyDataOf rs).map (·.2)).sum = (rs.map (·.value)).sum := by
  suffices h : ∀ m : List (Int × ℚ),
      (((rs.foldl (fun m r => addTo m (hourFloor r.startAt) r.value) m)).map (·.2)).sum
        = (m.map (·.2)).sum + (rs.map (·.value)).sum by
    simpa [hourlyDataOf] using h []
  induction rs with
  | nil => simp
  | cons r rs ih =>
      intro m
      simp only [List.foldl_cons, List.map_cons, List.sum_cons, ih, addTo_snd_sum]
      ring

/-! ## Claim theorems -/

/-- C8: for every consumption series, the sum of all readings' values equals
the sum of all hourly bucket values produced by the aggregator — no value is
lost or double-counted. -/
theorem c8_aggregation_sum_law (consumption : List Reading) :
    ((sortedHourly consumption).map (·.2)).sum = (consumption.map (·.value)).sum := by
  have hperm : (sortedHourly consumption).Perm (hourlyDataOf consumption) :=
    List.perm_insertionSort _ _
  rw [(hperm.map (·.2)).sum_eq, hourlyDataOf_sum]

/-- C10: a reading is produced by the secondary-source normalization exactly
when the decoded data holds a non-null entry for its timestamp, and then its
`endAt` is its `startAt` plus 30 minutes (both UTC instants); null-valued
entries are omitted, not zeroed and not errors. -/
theorem c10_glow_record_shape (entries : List (Int × Option ℚ)) (r : Reading) :
    r ∈ glowNormalize entries ↔
      ∃ ts v, (ts, some v) ∈ entries ∧
        r = { startAt := ts, endAt := ts + 30, value := v, source := .secondary } := by
  simp only [glowNormalize, List.mem_filterMap, Option.map_eq_some', mkGlowReading]
  constructor
  · rintro ⟨⟨ts, ov⟩, hmem, v, hv, hr⟩
    subst hv
    exact ⟨ts, v, hmem, hr.symm⟩
  · rintro ⟨ts, v, hmem, hr⟩
    exact ⟨(ts, some v), hmem, v, rfl, hr.symm⟩

/-- A concrete reading used in the C6 counterexample: the last primary
reading, spanning `[1000, 1030)`. -/
def c6Reading : Reading := ⟨1000, 1030, 1, .primary⟩

/-- C6 counterexample: with primary data whose last reading spans
`[1000, 1030)`, the code computes `since = 1030` (the reading's `startAt`
plus 30 minutes, i.e. its `endAt`), while the claim's "last primary reading's
end plus one 30-minute interval" is `1060`. -/
theorem c6_since_counterexample :
    glowStartOf [c6Reading] 0 = 1030 ∧ glowStartClaim [c6Reading] 0 = 1060 ∧
      glowStartOf [c6Reading] 0 ≠ glowStartClaim [c6Reading] 0 := by
  refine ⟨rfl, rfl, by decide⟩

/-- C6 amended: when primary data exists, the secondary `since` equals the
last primary reading's `startAt` plus 30 minutes — which is that reading's
`end` (not its end plus a further interval) whenever the reading satisfies
the 30-minute interval invariant; with no primary data it defaults to 2 days
before the current time. -/
theorem c6_since_amended (l : List Reading) (r : Reading) (now : Int)
    (h : r.endAt = r.startAt + 30) :
    glowStartOf (l ++ [r]) now = r.endAt ∧ glowStartOf [] now = now - 2880 := by
  constructor
  · simp [glowStartOf, List.getLast?_concat, h]
  · rfl

theorem c6_since_amended_witness :
    c6Reading.endAt = c6Reading.startAt + 30 ∧
      (glowStartOf ([] ++ [c6Reading]) 0 = c6Reading.endAt ∧
        glowStartOf [] 0 = 0 - 2880) :=
  ⟨by decide, c6_since_amended [] c6Reading 0 (by decide)⟩

instance : IsTotal Reading (fun a b => a.startAt ≤ b.startAt) :=
  ⟨fun a b => Int.le_total a.startAt b.startAt⟩

instance : IsTrans Reading (fun a b => a.startAt ≤ b.startAt) :=
  ⟨fun _ _ _ h h' => le_trans h h'⟩

/-- The primary reading of the C4 counterexample. -/
def c4Primary : Reading := ⟨0, 30, 1, .primary⟩

/-- The secondary reading of the C4 counterexample, sharing `startAt = 0`
with the primary one. -/
def c4Secondary : Reading := ⟨0, 30, 2, .secondary⟩

/-- A non-overlapping secondary reading, for the C4 witness. -/
def c4Later : Reading := ⟨60, 90, 2, .secondary⟩

/-- C4 counterexample: the merge performs no deduplication — given a primary
and a secondary reading with the same `startAt`, the merged series retains
the secondary reading as well, and two readings of the output share a
`start`. -/
theorem c4_dedup_counterexample :
    c4Secondary ∈ mergeSeries [c4Primary] [c4Secondary] ∧
      ¬ ((mergeSeries [c4Primary] [c4Secondary]).map (·.startAt)).Nodup := by
  constructor
  · decide
  · decide

/-- C4 amended: the merge is exactly concatenation followed by a stable sort
on `startAt` — a permutation of `primary ++ secondary`, sorted by `startAt` —
and contains no two readings sharing a `start` only under the additional
assumption that the inputs' starts are pairwise distinct (no cross-source
duplicate is removed). -/
theorem c4_merge_amended (primary secondary : List Reading)
    (hnodup : ((primary ++ secondary).map (·.startAt)).Nodup) :
    (mergeSeries primary secondary).Perm (primary ++ secondary) ∧
      (mergeSeries primary secondary).Sorted (fun a b => a.startAt ≤ b.startAt) ∧
      ((mergeSeries primary secondary).map (·.startAt)).Nodup := by
  have hperm : (mergeSeries primary secondary).Perm (primary ++ secondary) :=
    List.perm_insertionSort _ _
  refine ⟨hperm, List.sorted_insertionSort _ _, ?_⟩
  exact ((hperm.map (·.startAt)).nodup_iff).mpr hnodup

theorem c4_merge_amended_witness :
    (([c4Primary] ++ [c4Later]).map (·.startAt)).Nodup ∧
      ((mergeSeries [c4Primary] [c4Later]).Perm
          ([c4Primary] ++ [c4Later]) ∧
        (mergeSeries [c4Primary] [c4Later]).Sorted
          (fun a b => a.startAt ≤ b.startAt) ∧
        ((mergeSeries [c4Primary] [c4Later]).map (·.startAt)).Nodup) :=
  ⟨by decide, c4_merge_amended [c4Primary] [c4Later] (by decide)⟩

/-- The failing fetch outcomes of the C3 counterexample: meter 0's fetch
raises, meter 1's fetch succeeds with one reading. -/
def c3Fetches : List (Nat × Except Unit (List Reading)) :=
  [(0, .error ()), (1, .ok [⟨0, 30, 1, .primary⟩])]

/-- C3 counterexample: when meter 0's fetch raises, the whole update fails
(`UpdateFailed`) and the sibling meter 1's successful fetch is discarded —
the cycle result holds no entry for meter 1, the coordinator keeps only the
prior data.  The failure is not isolated to meter 0. -/
theorem c3_isolation_counterexample :
    updateData c3Fetches = .error () ∧ coordinatorStep [] c3Fetches = [] :=
  ⟨rfl, rfl⟩

/-- C3 amended: a fetch failure for any meter aborts the entire cycle — the
update raises `UpdateFailed` — and the coordinator preserves the previous
cycle's data unchanged for every meter (stale data is kept, sibling meters'
fresh results for this cycle are discarded). -/
theorem c3_cycle_abort_amended (fetches : List (Nat × Except Unit (List Reading)))
    (prior : List MeterEntry) (h : ∃ p ∈ fetches, ∃ e, p.2 = .error e) :
    (∃ e, updateData fetches = .error e) ∧ coordinatorStep prior fetches = prior := by
  have herr : ∃ e, updateData fetches = .error e := by
    induction fetches with
    | nil => simp at h
    | cons q rest ih =>
        obtain ⟨i, f⟩ := q
        obtain ⟨p, hp, e, hpe⟩ := h
        rcases List.mem_cons.mp hp with hph | hpr
        · subst hph
          simp only at hpe
          exact ⟨e, by simp [updateData, hpe]⟩
        · cases f with
          | error e' => exact ⟨e', by simp [updateData]⟩
          | ok c =>
              obtain ⟨e'', he''⟩ := ih ⟨p, hpr, e, hpe⟩
              exact ⟨e'', by simp [updateData, he'']⟩
  obtain ⟨e, he⟩ := herr
  exact ⟨⟨e, he⟩, by simp [coordinatorStep, he]⟩

theorem c3_cycle_abort_amended_witness :
    (∃ p ∈ c3Fetches, ∃ e, p.2 = .error e) ∧
      ((∃ e, updateData c3Fetches = .error e) ∧
        coordinatorStep [⟨5, []⟩] c3Fetches = [⟨5, []⟩]) :=
  ⟨⟨(0, .error ()), by simp [c3Fetches], (), rfl⟩,
    c3_cycle_abort_amended c3Fetches [⟨5, []⟩]
      ⟨(0, .error ()), by simp [c3Fetches], (), rfl⟩⟩

/-- A failure somewhere inside the secondary-source fetch: the client
constructor raises, resource discovery raises, the readings request (or its
JSON decoding) raises, the HTTP status is not 200, or a decoded data entry is
malformed so that its normalization raises. -/
def envFails (env : GlowEnv) : Prop :=
  env.clientOk = false ∨ env.discovery = .error () ∨ env.requestRaises = true ∨
    env.status ≠ 200 ∨ none ∈ env.data

theorem glowNormalizeRaw_malformed :
    ∀ {l : List (Option (Int × Option ℚ))}, none ∈ l → glowNormalizeRaw l = .error () := by
  intro l h
  induction l with
  | nil => simp at h
  | cons a rest ih =>
      cases a with
      | none => rfl
      | some e =>
          have hr : none ∈ rest := by simpa using h
          simp [glowNormalizeRaw, ih hr]

/-- C9: any failure inside the secondary-source fetch leaves the meter's
consumption series equal to the primary-only result: the failures the adapter
catches are converted to an empty result (so no merge happens), and the
normalization exception that escapes the adapter is caught by the caller's
guard, which keeps the primary series.  No failure reaches past the guarded
merge block. -/
theorem c9_secondary_failure_keeps_primary (primary : List Reading) (env : GlowEnv)
    (h : envFails env) :
    mergeGlowCaller primary env = primary ∧
      (env.clientOk = false ∨ env.discovery = .error () ∨ env.requestRaises = true ∨
          env.status ≠ 200 →
        fetchGlowData env = .ok []) := by
  obtain ⟨cok, disc, rr, st, data⟩ := env
  cases cok with
  | false => exact ⟨rfl, fun _ => rfl⟩
  | true =>
      cases disc with
      | error u => exact ⟨rfl, fun _ => rfl⟩
      | ok ents =>
          simp only [mergeGlowCaller, fetchGlowData, Bool.not_true, Bool.false_eq_true,
            if_false]
          cases hfind : findTargetResource ents with
          | none => exact ⟨rfl, fun _ => rfl⟩
          | some res =>
              cases rr with
              | true => exact ⟨rfl, fun _ => rfl⟩
              | false =>
                  by_cases hst : st = 200
                  · have hm : none ∈ data := by
                      rcases h with h | h | h | h | h
                      · exact absurd h (by simp)
                      · exact absurd h (by simp)
                      · exact absurd h (by simp)
                      · exact absurd h (by simp [hst])
                      · exact h
                    refine ⟨by simp [hst, glowNormalizeRaw_malformed hm], ?_⟩
                    intro hcaught
                    rcases hcaught with h' | h' | h' | h'
                    · exact absurd h' (by simp)
                    · exact absurd h' (by simp)
                    · exact absurd h' (by simp)
                    · exact absurd hst h'
                  · exact ⟨by simp [hst], fun _ => by simp [hst]⟩

/-- The concrete failing environment of the C9 witness: the Glowmarkt client
constructor raises. -/
def c9Env : GlowEnv := ⟨false, .ok [], false, 200, []⟩

theorem c9_secondary_failure_keeps_primary_witness :
    envFails c9Env ∧
      (mergeGlowCaller [c4Primary] c9Env = [c4Primary] ∧
        (c9Env.clientOk = false ∨ c9Env.discovery = .error () ∨
            c9Env.requestRaises = true ∨ c9Env.status ≠ 200 →
          fetchGlowData c9Env = .ok [])) :=
  ⟨Or.inl rfl, c9_secondary_failure_keeps_primary [c4Primary] c9Env (Or.inl rfl)⟩

/-- The server response of a meter with zero agreements in the window:
`account` present, `electricityAgreements: []`. -/
def emptyAgreementsResp : GqlResponse := ⟨some []⟩

/-- C5: when every response reports zero agreements/meter-points, no
iteration of the `while has_next_page` loop ever clears `has_next_page` —
after any number of iterations the loop is still running with no data
collected.  The fetch does not terminate with an empty sequence; it loops
forever re-issuing the same request. -/
theorem c5_zero_agreements_never_terminates (meterId : Nat) (endD : Int) :
    ∀ n : Nat, runPager meterId endD (fun _ => emptyAgreementsResp) n = ⟨[], true⟩ := by
  intro n
  induction n with
  | zero => rfl
  | succ n ih =>
      simp only [runPager]
      rw [ih]
      rfl

/-! ## Importer support lemmas -/

theorem pairwise_getLast? {α : Type _} {R S : α → α → Prop}
    (hRS : ∀ a b, R a b → S a b) (hrefl : ∀ a, S a a) :
    ∀ {l : List α}, l.Pairwise R → ∀ y ∈ l, ∀ g, l.getLast? = some g → S y g := by
  intro l
  induction l with
  | nil => simp
  | cons a t ih =>
      intro hh y hy g hg
      cases t with
      | nil =>
          simp at hy hg
          subst hy
          subst hg
          exact hrefl _
      | cons b t' =>
          rw [List.getLast?_cons_cons] at hg
          rcases List.mem_cons.mp hy with h1 | h2
          · subst h1
            exact hRS _ _
              ((List.pairwise_cons.mp hh).1 g (List.mem_of_mem_getLast? hg))
          · exact ih (List.pairwise_cons.mp hh).2 y h2 g hg

theorem walk_eq_nil_of_all_mem {e : List Int} :
    ∀ {l : List (Int × ℚ)}, (∀ x ∈ l, x.1 ∈ e) → ∀ acc, walk e l acc = [] := by
  intro l
  induction l with
  | nil => intro _ acc; rfl
  | cons x rest ih =>
      intro h acc
      obtain ⟨hv, vv⟩ := x
      have hx : hv ∈ e := h (hv, vv) (List.mem_cons_self _ _)
      simp only [walk, if_pos hx]
      exact ih (fun y hy => h y (List.mem_cons_of_mem _ hy)) _

theorem walk_start_mem {e : List Int} :
    ∀ {l : List (Int × ℚ)} {acc : ℚ} {q : StatPoint}, q ∈ walk e l acc →
      q.start ∈ l.map (·.1) ∧ q.start ∉ e := by
  intro l
  induction l with
  | nil => intro acc q hq; simp [walk] at hq
  | cons x rest ih =>
      intro acc q hq
      obtain ⟨hv, vv⟩ := x
      by_cases hx : hv ∈ e
      · simp only [walk, if_pos hx] at hq
        obtain ⟨h1, h2⟩ := ih hq
        exact ⟨List.mem_cons_of_mem _ h1, h2⟩
      · simp only [walk, if_neg hx] at hq
        rcases List.mem_cons.mp hq with h1 | h2
        · subst h1
          exact ⟨List.mem_cons_self _ _, hx⟩
        · obtain ⟨h1, h2⟩ := ih h2
          exact ⟨List.mem_cons_of_mem _ h1, h2⟩

theorem walk_emits {e : List Int} :
    ∀ {l : List (Int × ℚ)} {x : Int × ℚ}, x ∈ l → x.1 ∉ e →
      ∀ acc, ∃ q ∈ walk e l acc, q.start = x.1 := by
  intro l
  induction l with
  | nil => simp
  | cons y rest ih =>
      intro x hx hnx acc
      obtain ⟨hv, vv⟩ := y
      rcases List.mem_cons.mp hx with h1 | h2
      · have hxv : x.1 = hv := by rw [h1]
        have hnx' : hv ∉ e := hxv ▸ hnx
        simp only [walk, if_neg hnx']
        exact ⟨⟨hv, acc + vv, acc + vv⟩, List.mem_cons_self _ _, hxv.symm⟩
      · by_cases hy : hv ∈ e
        · simp only [walk, if_pos hy]
          exact ih h2 hnx _
        · simp only [walk, if_neg hy]
          obtain ⟨q, hq, hqs⟩ := ih h2 hnx (acc + vv)
          exact ⟨q, List.mem_cons_of_mem _ hq, hqs⟩

theorem walk_map_start_sublist (e : List Int) :
    ∀ (l : List (Int × ℚ)) (acc : ℚ),
      ((walk e l acc).map (·.start)).Sublist (l.map (·.1)) := by
  intro l
  induction l with
  | nil => intro acc; simp [walk]
  | cons x rest ih =>
      intro acc
      obtain ⟨hv, vv⟩ := x
      by_cases hx : hv ∈ e
      · simp only [walk, if_pos hx, List.map_cons]
        exact (ih _).cons _
      · simp only [walk, if_neg hx, List.map_cons]
        exact (ih _).cons₂ _

theorem mem_insertPoint_self : ∀ (s : List StatPoint) (q : StatPoint), q ∈ insertPoint s q := by
  intro s q
  induction s with
  | nil => simp [insertPoint]
  | cons p ps ih =>
      by_cases h1 : q.start < p.start
      · simp [insertPoint, h1]
      · by_cases h2 : q.start = p.start
        · simp [insertPoint, h1, h2]
        · simp only [insertPoint, if_neg h1, if_neg h2]
          exact List.mem_cons_of_mem _ ih

theorem mem_insertPoint_of_ne {p q : StatPoint} :
    ∀ {s : List StatPoint}, p ∈ s → q.start ≠ p.start → p ∈ insertPoint s q := by
  intro s
  induction s with
  | nil => simp
  | cons a as ih =>
      intro hp hne
      by_cases h1 : q.start < a.start
      · simp only [insertPoint, if_pos h1]
        exact List.mem_cons_of_mem _ hp
      · by_cases h2 : q.start = a.start
        · simp only [insertPoint, if_neg h1, if_pos h2]
          rcases List.mem_cons.mp hp with h3 | h3
          · exact absurd (h3 ▸ h2) hne
          · exact List.mem_cons_of_mem _ h3
        · simp only [insertPoint, if_neg h1, if_neg h2]
          rcases List.mem_cons.mp hp with h3 | h3
          · exact h3 ▸ List.mem_cons_self _ _
          · exact List.mem_cons_of_mem _ (ih h3 hne)

theorem mem_foldl_insertPoint_of_ne {p : StatPoint} :
    ∀ {pts s : List StatPoint}, p ∈ s → (∀ q ∈ pts, q.start ≠ p.start) →
      p ∈ pts.foldl insertPoint s := by
  intro pts
  induction pts with
  | nil => intro s hp _; exact hp
  | cons q rest ih =>
      intro s hp hq
      simp only [List.foldl_cons]
      exact ih (mem_insertPoint_of_ne hp (hq q (List.mem_cons_self _ _)))
        (fun r hr => hq r (List.mem_cons_of_mem _ hr))

theorem mem_foldl_insertPoint_self {q : StatPoint} :
    ∀ {pts s : List StatPoint}, q ∈ pts →
      pts.Pairwise (fun a b => a.start ≠ b.start) → q ∈ pts.foldl insertPoint s := by
  intro pts
  induction pts with
  | nil => simp
  | cons a rest ih =>
      intro s hq hpw
      simp only [List.foldl_cons]
      rcases List.mem_cons.mp hq with h1 | h2
      · subst h1
        exact mem_foldl_insertPoint_of_ne (mem_insertPoint_self s q)
          (fun r hr => ((List.pairwise_cons.mp hpw).1 r hr).symm)
      · exact ih h2 (List.pairwise_cons.mp hpw).2

/-- Unfolding of `importStats` on a non-empty bucket list. -/
theorem importStats_cons (store : List StatPoint) (x : Int × ℚ) (xs : List (Int × ℚ)) :
    importStats store (x :: xs) =
      walk ((statsDuring store x.1
              ((List.getLast (x :: xs) (List.cons_ne_nil x xs)).1 + 60)).map (·.start))
        (x :: xs)
        (match (statsDuring store (x.1 - 525600) x.1).getLast? with
          | some p => p.sum
          | none => 0) := rfl

/-- New points emitted by a walk over strictly ascending hours have strictly
ascending (hence pairwise distinct) hour starts. -/
theorem walk_pairwise_start {l : List (Int × ℚ)} (hh : HourlySorted l)
    (e : List Int) (acc : ℚ) :
    (walk e l acc).Pairwise (fun a b => a.start < b.start) := by
  have hsub := walk_map_start_sublist e l acc
  have hpw : (l.map (·.1)).Pairwise (fun a b : Int => a < b) :=
    List.pairwise_map.mpr hh
  exact List.pairwise_map.mp (List.Pairwise.sublist hsub hpw)

/-- C7: importing the same (sorted, distinct-hour) bucket sequence twice
against the same statistic identity writes zero new points on the second
call — every hour of the second call is found in the existing-range query
against the post-first-import store and is skipped. -/
theorem c7_reimport_writes_nothing (store : List StatPoint) (hourly : List (Int × ℚ))
    (hh : HourlySorted hourly) :
    importStats (applyImport store hourly) hourly = [] := by
  cases hourly with
  | nil => rfl
  | cons x xs =>
      rw [importStats_cons]
      apply walk_eq_nil_of_all_mem
      intro y hy
      have hge : x.1 ≤ y.1 := by
        rcases List.mem_cons.mp hy with h1 | h2
        · exact h1 ▸ le_refl _
        · exact le_of_lt ((List.pairwise_cons.mp hh).1 y h2)
      have hle : y.1 ≤ (List.getLast (x :: xs) (List.cons_ne_nil x xs)).1 :=
        pairwise_getLast? (S := fun a b : Int × ℚ => a.1 ≤ b.1)
          (fun a b h => le_of_lt h) (fun a => le_refl _) hh y hy _
          (List.getLast?_eq_getLast (x :: xs) (List.cons_ne_nil x xs))
      have hstarts_ne : (importStats store (x :: xs)).Pairwise
          (fun a b => a.start ≠ b.start) := by
        rw [importStats_cons]
        exact (walk_pairwise_start hh _ _).imp (fun hlt => ne_of_lt hlt)
      have hpoint : ∃ p ∈ applyImport store (x :: xs), p.start = y.1 := by
        by_cases hmem : y.1 ∈ (statsDuring store x.1
            ((List.getLast (x :: xs) (List.cons_ne_nil x xs)).1 + 60)).map (·.start)
        · obtain ⟨p, hp, hps⟩ := List.mem_map.mp hmem
          have hp' : p ∈ store := (List.mem_filter.mp hp).1
          refine ⟨p, ?_, hps⟩
          apply mem_foldl_insertPoint_of_ne hp'
          intro q hq hcontra
          have hq' : q ∈ importStats store (x :: xs) := hq
          rw [importStats_cons] at hq'
          apply (walk_start_mem hq').2
          rw [hcontra, hps]
          exact hmem
        · obtain ⟨q, hq, hqs⟩ := walk_emits hy hmem
            (match (statsDuring store (x.1 - 525600) x.1).getLast? with
              | some p => p.sum
              | none => 0)
          refine ⟨q, ?_, hqs⟩
          have hq' : q ∈ importStats store (x :: xs) := by
            rw [importStats_cons]
            exact hq
          exact mem_foldl_insertPoint_self hq' hstarts_ne
      obtain ⟨p, hp, hps⟩ := hpoint
      rw [List.mem_map]
      refine ⟨p, List.mem_filter.mpr ⟨hp, ?_⟩, hps⟩
      simp only [decide_eq_true_eq]
      rw [hps]
      exact ⟨hge, by omega⟩

theorem c7_reimport_writes_nothing_witness :
    HourlySorted [((0 : Int), (1 : ℚ)), (60, 2)] ∧
      importStats (applyImport [] [((0 : Int), (1 : ℚ)), (60, 2)])
        [((0 : Int), (1 : ℚ)), (60, 2)] = [] :=
  ⟨by unfold HourlySorted; decide,
    c7_reimport_writes_nothing [] [((0 : Int), (1 : ℚ)), (60, 2)]
      (by unfold HourlySorted; decide)⟩

theorem foldl_pick_some (t : List StatPoint) (p : StatPoint)
    (hlt : ∀ z ∈ t, p.start < z.start) (ht : StoreSorted t) :
    t.foldl
      (fun acc p =>
        match acc with
        | none => some p
        | some q => if q.start < p.start then some p else some q)
      (some p) = some (t.getLast?.getD p) := by
  induction t generalizing p with
  | nil => rfl
  | cons z t' ih =>
      have hstep : (if p.start < z.start then some z else some p) = some z :=
        if_pos (hlt z (List.mem_cons_self _ _))
      calc (z :: t').foldl _ (some p)
          = t'.foldl _ (if p.start < z.start then some z else some p) := rfl
        _ = t'.foldl _ (some z) := by rw [hstep]
        _ = some (t'.getLast?.getD z) :=
            ih z (List.pairwise_cons.mp ht).1 (List.pairwise_cons.mp ht).2
        _ = some ((z :: t').getLast?.getD p) := by rw [List.getLast?_cons]; rfl

/-- On a store held in ascending hour order, the "most recent point in the
window" of the spec coincides with the last row of the range query — which is
what the code reads. -/
theorem mostRecentBefore_sorted (store : List StatPoint) (lo hi : Int)
    (hs : StoreSorted store) :
    mostRecentBefore store lo hi = (statsDuring store lo hi).getLast? := by
  have hsort : StoreSorted (statsDuring store lo hi) := List.Pairwise.filter _ hs
  simp only [mostRecentBefore]
  cases hl : statsDuring store lo hi with
  | nil => rfl
  | cons p t =>
      rw [hl] at hsort
      show t.foldl _ (some p) = (p :: t).getLast?
      rw [foldl_pick_some t p (List.pairwise_cons.mp hsort).1
        (List.pairwise_cons.mp hsort).2, List.getLast?_cons]

theorem walk_congr {e₁ e₂ : List Int} :
    ∀ {l : List (Int × ℚ)}, (∀ x ∈ l, (x.1 ∈ e₁ ↔ x.1 ∈ e₂)) →
      ∀ acc, walk e₁ l acc = walk e₂ l acc := by
  intro l
  induction l with
  | nil => intro _ acc; rfl
  | cons x rest ih =>
      intro h acc
      obtain ⟨hv, vv⟩ := x
      have hiff : hv ∈ e₁ ↔ hv ∈ e₂ := h (hv, vv) (List.mem_cons_self _ _)
      have hrest := ih (fun y hy => h y (List.mem_cons_of_mem _ hy))
      by_cases h1 : hv ∈ e₁
      · simp only [walk, if_pos h1, if_pos (hiff.mp h1)]
        exact hrest _
      · simp only [walk, if_neg h1, if_neg (fun h2 => h1 (hiff.mpr h2))]
        rw [hrest]

/-- Unfolding of `importSpecPoints` on a non-empty bucket list. -/
theorem importSpecPoints_cons (store : List StatPoint) (x : Int × ℚ)
    (xs : List (Int × ℚ)) :
    importSpecPoints store (x :: xs) =
      walk (store.map (·.start)) (x :: xs)
        (match mostRecentBefore store (x.1 - 525600) x.1 with
          | some p => p.sum
          | none => 0) := rfl

/-- C2: the importer re-derives its running total from the persisted store
alone (both sides below are functions of the store, no in-memory state):
against a store held in hour order, the code — last row of the 365-day
lookback query strictly before the first bucket, else 0; ascending walk
adding every bucket's value unconditionally; skip of hours present in the
range query; `state = sum = running total` on every emitted point — computes
exactly the spec's description, where the checkpoint is the most recent such
point and the skipped hours are those already present in the store. -/
theorem c2_import_refines_spec (store : List StatPoint) (hourly : List (Int × ℚ))
    (hs : StoreSorted store) (hh : HourlySorted hourly) :
    importStats store hourly = importSpecPoints store hourly := by
  cases hourly with
  | nil => rfl
  | cons x xs =>
      rw [importStats_cons, importSpecPoints_cons,
        mostRecentBefore_sorted store (x.1 - 525600) x.1 hs]
      apply walk_congr
      intro y hy
      have hge : x.1 ≤ y.1 := by
        rcases List.mem_cons.mp hy with h1 | h2
        · exact h1 ▸ le_refl _
        · exact le_of_lt ((List.pairwise_cons.mp hh).1 y h2)
      have hle : y.1 ≤ (List.getLast (x :: xs) (List.cons_ne_nil x xs)).1 :=
        pairwise_getLast? (S := fun a b : Int × ℚ => a.1 ≤ b.1)
          (fun a b h => le_of_lt h) (fun a => le_refl _) hh y hy _
          (List.getLast?_eq_getLast (x :: xs) (List.cons_ne_nil x xs))
      constructor
      · intro hmem
        obtain ⟨p, hp, hps⟩ := List.mem_map.mp hmem
        exact List.mem_map.mpr ⟨p, (List.mem_filter.mp hp).1, hps⟩
      · intro hmem
        obtain ⟨p, hp, hps⟩ := List.mem_map.mp hmem
        refine List.mem_map.mpr ⟨p, List.mem_filter.mpr ⟨hp, ?_⟩, hps⟩
        simp only [decide_eq_true_eq]
        rw [hps]
        exact ⟨hge, by omega⟩

theorem c2_import_refines_spec_witness :
    StoreSorted [⟨0, 1, 1⟩] ∧ HourlySorted [((60 : Int), (2 : ℚ))] ∧
      importStats [⟨0, 1, 1⟩] [((60 : Int), (2 : ℚ))] =
        importSpecPoints [⟨0, 1, 1⟩] [((60 : Int), (2 : ℚ))] :=
  ⟨by unfold StoreSorted; decide, by unfold HourlySorted; decide,
    c2_import_refines_spec [⟨0, 1, 1⟩] [((60 : Int), (2 : ℚ))]
      (by unfold StoreSorted; decide) (by unfold HourlySorted; decide)⟩

/-- The store produced by two successive import calls starting from an empty
store: first an import of a single bucket at hour start 6000 with value 1,
then an import of a single bucket at the earlier hour start 3000 with
value 5. -/
def c1Store : List StatPoint :=
  applyImport (applyImport [] [((6000 : Int), (1 : ℚ))]) [((3000 : Int), (5 : ℚ))]

/-- C1 counterexample: a sequence of two import calls against the same
statistic identity for which the persisted `sum` sequence, ordered by
`hour_start`, is decreasing.  The second call's checkpoint query looks only
strictly before its first bucket (hour 3000), misses the already-persisted
point at hour 6000, restarts the running total at 0 and writes
`(3000, sum = 5)` ahead of the existing `(6000, sum = 1)`. -/
theorem c1Store_eq : c1Store = [⟨3000, 5, 5⟩, ⟨6000, 1, 1⟩] := by
  have h1 : importStats [] [((6000 : Int), (1 : ℚ))] = [⟨6000, 1, 1⟩] := by
    rw [importStats_cons]
    norm_num [statsDuring, walk]
  have h2 : applyImport [] [((6000 : Int), (1 : ℚ))] = [⟨6000, 1, 1⟩] := by
    simp [applyImport, h1, insertPoint]
  have h3 : importStats [(⟨6000, 1, 1⟩ : StatPoint)] [((3000 : Int), (5 : ℚ))]
      = [⟨3000, 5, 5⟩] := by
    rw [importStats_cons]
    norm_num [statsDuring, walk]
  rw [c1Store, h2, applyImport, h3]
  norm_num [insertPoint]

theorem c1_monotonicity_counterexample :
    c1Store = [⟨3000, 5, 5⟩, ⟨6000, 1, 1⟩] ∧ ¬ SumsMono c1Store := by
  refine ⟨c1Store_eq, ?_⟩
  rw [SumsMono, c1Store_eq]
  norm_num [List.pairwise_cons]

theorem walk_sums_lb {e : List Int} :
    ∀ {l : List (Int × ℚ)}, (∀ z ∈ l, 0 ≤ z.2) →
      ∀ acc : ℚ, ∀ q ∈ walk e l acc, acc ≤ q.sum := by
  intro l
  induction l with
  | nil => intro _ acc q hq; simp [walk] at hq
  | cons x rest ih =>
      intro hv acc q hq
      obtain ⟨hvh, vvh⟩ := x
      have h0 : (0 : ℚ) ≤ vvh := hv (hvh, vvh) (List.mem_cons_self _ _)
      have hacc : acc ≤ acc + vvh := by linarith
      have hv' : ∀ z ∈ rest, (0 : ℚ) ≤ z.2 :=
        fun z hz => hv z (List.mem_cons_of_mem _ hz)
      by_cases hx : hvh ∈ e
      · simp only [walk, if_pos hx] at hq
        exact le_trans hacc (ih hv' _ q hq)
      · simp only [walk, if_neg hx] at hq
        rcases List.mem_cons.mp hq with h1 | h2
        · rw [h1]
          exact hacc
        · exact le_trans hacc (ih hv' _ q h2)

theorem walk_sums_mono {e : List Int} :
    ∀ {l : List (Int × ℚ)}, (∀ z ∈ l, 0 ≤ z.2) →
      ∀ acc : ℚ, SumsMono (walk e l acc) := by
  intro l
  induction l with
  | nil => intro _ acc; exact List.Pairwise.nil
  | cons x rest ih =>
      intro hv acc
      obtain ⟨hvh, vvh⟩ := x
      have hv' : ∀ z ∈ rest, (0 : ℚ) ≤ z.2 :=
        fun z hz => hv z (List.mem_cons_of_mem _ hz)
      by_cases hx : hvh ∈ e
      · simp only [walk, if_pos hx]
        exact ih hv' _
      · simp only [walk, if_neg hx]
        exact List.pairwise_cons.mpr
          ⟨fun q hq => walk_sums_lb hv' _ q hq, ih hv' _⟩

theorem insertPoint_append {q : StatPoint} :
    ∀ {s : List StatPoint}, (∀ p ∈ s, p.start < q.start) →
      insertPoint s q = s ++ [q] := by
  intro s
  induction s with
  | nil => intro _; rfl
  | cons a as ih =>
      intro h
      have h1 : ¬ q.start < a.start :=
        not_lt.mpr (le_of_lt (h a (List.mem_cons_self _ _)))
      have h2 : ¬ q.start = a.start :=
        fun he => absurd (he ▸ h a (List.mem_cons_self _ _)) (lt_irrefl _)
      simp only [insertPoint, if_neg h1, if_neg h2, List.cons_append]
      rw [ih (fun p hp => h p (List.mem_cons_of_mem _ hp))]

theorem foldl_insertPoint_append :
    ∀ (pts s : List StatPoint), (∀ p ∈ s, ∀ q ∈ pts, p.start < q.start) →
      pts.Pairwise (fun a b => a.start < b.start) →
      pts.foldl insertPoint s = s ++ pts := by
  intro pts
  induction pts with
  | nil => intro s _ _; simp
  | cons q rest ih =>
      intro s hcross hpw
      simp only [List.foldl_cons]
      rw [insertPoint_append (fun p hp => hcross p hp q (List.mem_cons_self _ _))]
      rw [ih (s ++ [q]) ?_ (List.pairwise_cons.mp hpw).2]
      · simp
      · intro p hp r hr
        rcases List.mem_append.mp hp with h1 | h2
        · exact hcross p h1 r (List.mem_cons_of_mem _ hr)
        · have : p = q := by simpa using h2
          exact this ▸ (List.pairwise_cons.mp hpw).1 r hr

/-- C1 amended: the persisted `sum` sequence stays non-decreasing, and no
existing point is rewritten (every previously persisted row survives
unchanged), provided each import call's buckets carry non-negative
values and lie chronologically after every already-persisted point, with the
persisted points within the 365-day checkpoint lookback of the first bucket.
The counterexample shows the unconditional claim fails when a call's buckets
precede persisted points (or fall outside the lookback), so the claim is
restricted to chronologically forward import sequences. -/
theorem c1_monotonicity_amended (store : List StatPoint) (hourly : List (Int × ℚ))
    (hs : StoreSorted store) (hm : SumsMono store) (hh : HourlySorted hourly)
    (hv : ∀ z ∈ hourly, 0 ≤ z.2)
    (hafter : ∀ p ∈ store, ∀ z ∈ hourly, p.start < z.1)
    (hlook : ∀ p ∈ store, ∀ z, hourly.head? = some z → z.1 - 525600 ≤ p.start) :
    StoreSorted (applyImport store hourly) ∧ SumsMono (applyImport store hourly) ∧
      ∀ p ∈ store, p ∈ applyImport store hourly := by
  cases hourly with
  | nil => exact ⟨hs, hm, fun p hp => hp⟩
  | cons x xs =>
      have hexist : statsDuring store x.1
          ((List.getLast (x :: xs) (List.cons_ne_nil x xs)).1 + 60) = [] := by
        rw [statsDuring, List.filter_eq_nil_iff]
        intro p hp
        simp only [decide_eq_true_eq, not_and]
        intro h1
        exact absurd (hafter p hp x (List.mem_cons_self _ _)) (not_lt.mpr h1)
      have hlastq : statsDuring store (x.1 - 525600) x.1 = store := by
        rw [statsDuring, List.filter_eq_self]
        intro p hp
        simp only [decide_eq_true_eq]
        exact ⟨hlook p hp x rfl, hafter p hp x (List.mem_cons_self _ _)⟩
      have himp : importStats store (x :: xs) =
          walk [] (x :: xs)
            (match store.getLast? with
              | some p => p.sum
              | none => 0) := by
        rw [importStats_cons, hexist, hlastq]
        rfl
      have hstarts : ∀ q ∈ importStats store (x :: xs), ∀ p ∈ store,
          p.start < q.start := by
        intro q hq p hp
        rw [himp] at hq
        obtain ⟨hmem, _⟩ := walk_start_mem hq
        obtain ⟨z, hz, hzs⟩ := List.mem_map.mp hmem
        exact hzs ▸ hafter p hp z hz
      have happ : applyImport store (x :: xs) =
          store ++ importStats store (x :: xs) := by
        apply foldl_insertPoint_append
        · intro p hp q hq
          exact hstarts q hq p hp
        · rw [himp]
          exact walk_pairwise_start hh [] _
      rw [happ]
      refine ⟨?_, ?_, fun p hp => List.mem_append_left _ hp⟩
      · unfold StoreSorted
        rw [List.pairwise_append]
        refine ⟨hs, ?_, fun p hp q hq => hstarts q hq p hp⟩
        rw [himp]
        exact walk_pairwise_start hh [] _
      · unfold SumsMono
        rw [List.pairwise_append]
        refine ⟨hm, ?_, ?_⟩
        · rw [himp]
          exact walk_sums_mono hv _
        · intro p hp q hq
          have hne : store ≠ [] := by
            intro hcon
            rw [hcon] at hp
            simp at hp
          have hglast : store.getLast? = some (store.getLast hne) :=
            List.getLast?_eq_getLast store hne
          have hple : p.sum ≤ (store.getLast hne).sum :=
            pairwise_getLast? (S := fun a b : StatPoint => a.sum ≤ b.sum)
              (fun a b h => h) (fun a => le_refl _) hm p hp _ hglast
          have hr0 : (match store.getLast? with
              | some p => p.sum
              | none => (0 : ℚ)) = (store.getLast hne).sum := by
            rw [hglast]
          rw [himp] at hq
          have hqlb := walk_sums_lb hv
            (match store.getLast? with
              | some p => p.sum
              | none => (0 : ℚ)) q hq
          rw [hr0] at hqlb
          exact le_trans hple hqlb

theorem c1_monotonicity_amended_witness :
    (StoreSorted [⟨0, 1, 1⟩] ∧ SumsMono [⟨0, 1, 1⟩] ∧
        HourlySorted [((60 : Int), (2 : ℚ)), (120, 1)] ∧
        (∀ z ∈ [((60 : Int), (2 : ℚ)), (120, 1)], 0 ≤ z.2) ∧
        (∀ p ∈ [(⟨0, 1, 1⟩ : StatPoint)], ∀ z ∈ [((60 : Int), (2 : ℚ)), (120, 1)],
          p.start < z.1) ∧
        (∀ p ∈ [(⟨0, 1, 1⟩ : StatPoint)], ∀ z : Int × ℚ,
          [((60 : Int), (2 : ℚ)), (120, 1)].head? = some z →
            z.1 - 525600 ≤ p.start)) ∧
      (StoreSorted (applyImport [⟨0, 1, 1⟩] [((60 : Int), (2 : ℚ)), (120, 1)]) ∧
        SumsMono (applyImport [⟨0, 1, 1⟩] [((60 : Int), (2 : ℚ)), (120, 1)]) ∧
        ∀ p ∈ [(⟨0, 1, 1⟩ : StatPoint)],
          p ∈ applyImport [⟨0, 1, 1⟩] [((60 : Int), (2 : ℚ)), (120, 1)]) :=
  ⟨⟨by unfold StoreSorted; decide, by unfold SumsMono; decide,
      by unfold HourlySorted; decide, by decide, by decide, by decide⟩,
    c1_monotonicity_amended [⟨0, 1, 1⟩] [((60 : Int), (2 : ℚ)), (120, 1)]
      (by unfold StoreSorted; decide) (by unfold SumsMono; decide)
      (by unfold HourlySorted; decide) (by decide) (by decide) (by decide)⟩

end Eonha
